import Mathlib

/-!
Shallow embedding of the team-metrics aggregation engine of
`src/local-server/main.py` (the `calculate_team_metrics` tool), together
with proofs about its behaviour.

Timestamps (`delivered_at`, `last_activity_at`, `created_at`, parsed
dates) are Unix-epoch numbers in the source; they are modelled as `Int`.
A JSON field that may be missing is modelled as `Option`; the Python
defaults (`.get(key, 0)`, `or ""`) are applied explicitly where the code
applies them.  The upstream HTTP API is modelled as data: the
conversation feed is a list of pages, and the per-conversation message
fetch is an `Option (List Message)` (`none` = the fetch raised, the
`except: continue` path).
-/

namespace Missive

/-- A message as consumed by the code: `from_field.address` (absent field
or absent address modelled as `none`), `to_fields[].address`, and
`delivered_at` (defaulted to 0 by the code when missing, so modelled
total). -/
structure Message where
  from_address : Option String
  to_addresses : List (Option String)
  delivered_at : Int
  deriving Repr, DecidableEq

/-- Python `str.lower()`, character by character. -/
def strLower (s : String) : String := ⟨s.data.map Char.toLower⟩

/-- `get_email(field)`: `(field.get("address") or "").lower() if field else ""`. -/
def get_email (field : Option String) : String :=
  match field with
  | none => ""
  | some a => strLower a

/-- Contiguous-sublist test on character lists (the empty needle matches
everywhere, as in Python). -/
def charsIn (needle : List Char) : List Char → Bool
  | [] => needle.isEmpty
  | c :: rest => needle.isPrefixOf (c :: rest) || charsIn needle rest

/-- Python substring test `needle in haystack` on strings. -/
def strIn (needle haystack : String) : Bool :=
  charsIn needle.data haystack.data

/-- `is_internal(email)`: false for a falsy (empty) address, otherwise
true iff some configured domain is a substring of the lowercased
address. -/
def is_internal (domains : List String) (email : String) : Bool :=
  if email = "" then false
  else domains.any (fun d => strIn d (strLower email))

/-- The `metrics` dict of the source.  `first_reply_times` keeps insertion
order; the channel dicts are modelled as insertion-ordered association
lists. -/
structure Metrics where
  total_conversations : Nat
  conversations_with_reply : Nat
  total_inbound : Nat
  total_outbound : Nat
  first_reply_times : List Int
  channels_inbound : List (String × Nat)
  channels_outbound : List (String × Nat)
  deriving Repr, DecidableEq

/-- `metrics[ch] = metrics.get(ch, 0) + 1` on an insertion-ordered dict. -/
def bump (chans : List (String × Nat)) (key : String) : List (String × Nat) :=
  match chans with
  | [] => [(key, 1)]
  | (k, v) :: rest => if k = key then (k, v + 1) :: rest else (k, v) :: bump rest key

/-- `channels_to_track is None or addr in channels_to_track`. -/
def trackOk (tracked : Option (List String)) (addr : String) : Bool :=
  match tracked with
  | none => true
  | some chans => chans.contains addr

/-- Python truthiness of the `first_inbound_time` / `first_outbound_time`
variables: `None` and the number 0 are falsy. -/
def truthy : Option Int → Bool
  | none => false
  | some t => t != 0

/-- Loop state of the per-conversation message walk: the metrics dict plus
the `first_inbound_time` / `first_outbound_time` locals. -/
structure ConvState where
  m : Metrics
  first_inbound_time : Option Int
  first_outbound_time : Option Int
  deriving Repr, DecidableEq

/-- The `for to_field in to_fields` inner loop of the inbound branch:
attribute the message to every internal recipient address that passes the
channel filter. -/
def addInboundChannels (domains : List String) (tracked : Option (List String))
    (chans : List (String × Nat)) (to_addresses : List (Option String)) :
    List (String × Nat) :=
  to_addresses.foldl
    (fun ch tf =>
      let to_email := get_email tf
      if is_internal domains to_email then
        if trackOk tracked to_email then bump ch to_email else ch
      else ch)
    chans

/-- One iteration of the `for msg in filtered_messages` loop. -/
def processMsg (domains : List String) (tracked : Option (List String))
    (s : ConvState) (msg : Message) : ConvState :=
  let from_email := get_email msg.from_address
  if is_internal domains from_email then
    -- outbound branch
    let m1 := { s.m with total_outbound := s.m.total_outbound + 1 }
    let m2 :=
      if from_email ≠ "" && trackOk tracked from_email then
        { m1 with channels_outbound := bump m1.channels_outbound from_email }
      else m1
    let fot :=
      if s.first_outbound_time = none && s.first_inbound_time ≠ none then
        some msg.delivered_at
      else s.first_outbound_time
    { m := m2, first_inbound_time := s.first_inbound_time, first_outbound_time := fot }
  else
    -- inbound branch
    let m1 := { s.m with total_inbound := s.m.total_inbound + 1 }
    let m2 := { m1 with
      channels_inbound := addInboundChannels domains tracked m1.channels_inbound msg.to_addresses }
    let fit :=
      if s.first_inbound_time = none then some msg.delivered_at
      else s.first_inbound_time
    { m := m2, first_inbound_time := fit, first_outbound_time := s.first_outbound_time }

/-- `start_ts <= delivered_at <= end_ts` date filter on messages. -/
def filterMsgs (startTs endTs : Int) (messages : List Message) : List Message :=
  messages.filter (fun msg => startTs ≤ msg.delivered_at && msg.delivered_at ≤ endTs)

/-- Insert a message into an already-sorted list, before the first entry
whose `delivered_at` is not smaller — so equal keys keep their original
relative order. -/
def insertByDelivered (msg : Message) : List Message → List Message
  | [] => [msg]
  | m :: rest =>
    if m.delivered_at < msg.delivered_at then m :: insertByDelivered msg rest
    else msg :: m :: rest

/-- Stable ascending sort by `delivered_at`, modelling Python's stable
`list.sort(key=lambda m: m.get("delivered_at", 0))`. -/
def sortMsgs : List Message → List Message
  | [] => []
  | msg :: rest => insertByDelivered msg (sortMsgs rest)

/-- Body of the `for idx, conv in enumerate(conversations)` loop for one
conversation: `fetched = none` is the exception path (`except: continue`)
which leaves the metrics untouched; `some messages` filters, sorts, walks
the messages, then records the first-reply latency when both endpoint
variables are truthy and the difference is strictly positive. -/
def processConv (startTs endTs : Int) (domains : List String)
    (tracked : Option (List String)) (m : Metrics)
    (fetched : Option (List Message)) : Metrics :=
  match fetched with
  | none => m
  | some messages =>
    let filtered_messages := sortMsgs (filterMsgs startTs endTs messages)
    let s := filtered_messages.foldl (processMsg domains tracked) ⟨m, none, none⟩
    if truthy s.first_inbound_time && truthy s.first_outbound_time then
      let reply_time := s.first_outbound_time.getD 0 - s.first_inbound_time.getD 0
      if reply_time > 0 then
        { s.m with
          first_reply_times := s.m.first_reply_times ++ [reply_time],
          conversations_with_reply := s.m.conversations_with_reply + 1 }
      else s.m
    else s.m

/-- Zero-valued metrics dict, as initialised before the conversation fetch. -/
def initMetrics : Metrics :=
  { total_conversations := 0, conversations_with_reply := 0, total_inbound := 0,
    total_outbound := 0, first_reply_times := [], channels_inbound := [],
    channels_outbound := [] }

/-- The aggregation phase: `total_conversations` is set to the retained
conversation count before the loop, then each conversation's message-fetch
outcome is folded in (`none` entries are the skipped fetch failures). -/
def aggregate (startTs endTs : Int) (domains : List String)
    (tracked : Option (List String)) (fetches : List (Option (List Message))) :
    Metrics :=
  fetches.foldl (processConv startTs endTs domains tracked)
    { initMetrics with total_conversations := fetches.length }

/-! ### Conversation paging -/

/-- A conversation record as consumed by the pager; the code defaults both
timestamps to 0 when missing, so they are modelled total. -/
structure Conv where
  last_activity_at : Int
  created_at : Int
  deriving Repr, DecidableEq

/-- The date filter applied to each fetched page:
`(last_activity >= start_ts or created_at >= start_ts) and created_at <= end_ts`. -/
def retainPage (startTs endTs : Int) (batch : List Conv) : List Conv :=
  batch.filter (fun conv =>
    (conv.last_activity_at ≥ startTs || conv.created_at ≥ startTs) &&
    conv.created_at ≤ endTs)

/-- `min(c.get("last_activity_at", 0) for c in batch)` (only evaluated on a
nonempty batch in the code; the `[]` case is an arbitrary default). -/
def minLastActivity : List Conv → Int
  | [] => 0
  | c :: cs => cs.foldl (fun acc x => min acc x.last_activity_at) c.last_activity_at

/-- The `while len(conversations) < max_conversations` paging loop.  The
upstream cursor walk is modelled as a fixed sequence of pages; an exhausted
feed behaves like the empty batch the API would return (`break`).  The loop:
check the cap, fetch a batch, break on an empty batch, append the
date-filtered batch, break when the oldest `last_activity_at` of the batch
is before `start_ts`, break on a short (< 50) batch, else continue with the
next page.  Only the success path is modelled: an HTTP failure while paging
returns an error for the whole run and is outside this function. -/
def pagerLoop (startTs endTs : Int) (cap : Int) :
    List (List Conv) → List Conv → List Conv
  | [], conversations => conversations
  | batch :: rest, conversations =>
    if (conversations.length : Int) < cap then
      if batch.isEmpty then conversations
      else
        let conversations' := conversations ++ retainPage startTs endTs batch
        if minLastActivity batch < startTs then conversations'
        else if batch.length < 50 then conversations'
        else pagerLoop startTs endTs cap rest conversations'
    else conversations

/-- The pager as invoked by the code: start from an empty accumulator. -/
def conversationPager (startTs endTs : Int) (cap : Int)
    (pages : List (List Conv)) : List Conv :=
  pagerLoop startTs endTs cap pages []

/-! ### Spec-side first-reply notions

These three definitions follow the spec's words, not the code: on the
date-filtered, `delivered_at`-sorted message sequence, `first_inbound_at`
is the timestamp of the first inbound message, and
`first_outbound_after_inbound_at` is the timestamp of the first outbound
message occurring after the first inbound has been seen (an outbound
message before any inbound is skipped, never used as the reply).  They are
compared against the walk implemented by `processMsg`/`processConv`. -/

/-- Timestamp of the first message classified inbound. -/
def firstInboundAt (domains : List String) : List Message → Option Int
  | [] => none
  | msg :: rest =>
    if is_internal domains (get_email msg.from_address) then
      firstInboundAt domains rest
    else some msg.delivered_at

/-- Timestamp of the first message classified outbound. -/
def firstOutboundFrom (domains : List String) : List Message → Option Int
  | [] => none
  | msg :: rest =>
    if is_internal domains (get_email msg.from_address) then
      some msg.delivered_at
    else firstOutboundFrom domains rest

/-- Timestamp of the first outbound message strictly after the first
inbound one: leading outbound messages are skipped, and from the first
inbound message on, the first outbound timestamp is taken. -/
def firstOutboundAfterInboundAt (domains : List String) : List Message → Option Int
  | [] => none
  | msg :: rest =>
    if is_internal domains (get_email msg.from_address) then
      firstOutboundAfterInboundAt domains rest
    else firstOutboundFrom domains rest

/-! ### Reply-time distribution rendering -/

/-- The six bucket counts of the FIRST REPLY TIME DISTRIBUTION section, in
rendering order (`under_15m`, `under_1h`, `under_4h`, `under_12h`,
`under_48h`, `over_48h`). -/
def bucketCounts (times : List Int) : List Nat :=
  [times.countP (fun t => decide (t < 900)),
   times.countP (fun t => decide (900 ≤ t ∧ t < 3600)),
   times.countP (fun t => decide (3600 ≤ t ∧ t < 14400)),
   times.countP (fun t => decide (14400 ≤ t ∧ t < 43200)),
   times.countP (fun t => decide (43200 ≤ t ∧ t < 172800)),
   times.countP (fun t => decide (172800 ≤ t))]

/-- The rendered distribution lines as (count, percentage) pairs: each line
shows a bucket count and `count*100//total` with floor division. -/
def replyDistribution (times : List Int) : List (Nat × Nat) :=
  let total := times.length
  let under_15m := times.countP (fun t => decide (t < 900))
  let under_1h := times.countP (fun t => decide (900 ≤ t ∧ t < 3600))
  let under_4h := times.countP (fun t => decide (3600 ≤ t ∧ t < 14400))
  let under_12h := times.countP (fun t => decide (14400 ≤ t ∧ t < 43200))
  let under_48h := times.countP (fun t => decide (43200 ≤ t ∧ t < 172800))
  let over_48h := times.countP (fun t => decide (172800 ≤ t))
  [(under_15m, under_15m * 100 / total),
   (under_1h, under_1h * 100 / total),
   (under_4h, under_4h * 100 / total),
   (under_12h, under_12h * 100 / total),
   (under_48h, under_48h * 100 / total),
   (over_48h, over_48h * 100 / total)]

/-! ### The entry point -/

/-- Outcome of one `calculate_team_metrics` invocation, abstracted from the
rendered strings: which phase produced the response. -/
inductive EntryOutcome
  | authError      -- `get_api_token()` raised: no token configured
  | invalidInput   -- "Error: Dates must be in YYYY-MM-DD format"
  | emptyResult (totalConvs : Nat)  -- "No conversations found ..." (zero retained)
  | report (m : Metrics)            -- the full metrics report
  deriving Repr, DecidableEq

/-- The `calculate_team_metrics` pipeline.  `datetime.strptime` is
abstracted as the `Option Int` results `parsedStart`/`parsedEnd` (`none` =
`ValueError`, `some ts` = the midnight timestamp of the parsed day); the
end-of-day adjustment `.replace(hour=23, minute=59, second=59)` adds 86399
seconds.  The network is passed in as data (`pages` for the conversation
listing, `fetchMessages` for the per-conversation message fetch), so an
outcome that is independent of that data was produced before any network
call.  Order, as in the source: token resolution, date parsing, cap
clamping `min(max_conversations, 2000)`, paging, the empty-result early
return, aggregation. -/
def calculate_team_metrics (tokenOk : Bool) (parsedStart parsedEnd : Option Int)
    (max_conversations : Int) (domains : List String)
    (tracked : Option (List String)) (pages : List (List Conv))
    (fetchMessages : Conv → Option (List Message)) : EntryOutcome :=
  if !tokenOk then .authError
  else
    match parsedStart, parsedEnd with
    | some sd, some ed =>
      let startTs := sd
      let endTs := ed + 86399
      let cap := min max_conversations 2000
      let conversations := conversationPager startTs endTs cap pages
      if conversations.isEmpty then .emptyResult conversations.length
      else
        .report (aggregate startTs endTs domains tracked
          (conversations.map fetchMessages))
    | _, _ => .invalidInput

/-! ### Concrete data for counterexamples and witnesses -/

/-- An inbound message from an external sender, delivered exactly at the
Unix epoch (timestamp 0). -/
def msgInboundAtZero : Message := ⟨some "ext@x.com", [some "me@example.com"], 0⟩

/-- An outbound reply from the internal address, 120 seconds after the
epoch. -/
def msgOutboundAt120 : Message := ⟨some "me@example.com", [], 120⟩

/-- A conversation with both timestamps inside the window of the examples. -/
def convInRange : Conv := ⟨100, 100⟩

/-- A full page (50 conversations) inside the window. -/
def pageInRange : List Conv := List.replicate 50 ⟨100, 100⟩

/-- A full page whose every entry has `last_activity_at` before the window
start (10 < 50) but `created_at` inside the window. -/
def pageLateActivity : List Conv := List.replicate 50 ⟨10, 100⟩

/-! ### Basic lemmas about the message walk -/

theorem processMsg_total_conversations (d : List String) (tr : Option (List String))
    (s : ConvState) (x : Message) :
    (processMsg d tr s x).m.total_conversations = s.m.total_conversations := by
  simp only [processMsg]
  split <;> split <;> rfl

theorem processMsg_conversations_with_reply (d : List String) (tr : Option (List String))
    (s : ConvState) (x : Message) :
    (processMsg d tr s x).m.conversations_with_reply = s.m.conversations_with_reply := by
  simp only [processMsg]
  split <;> split <;> rfl

theorem processMsg_first_reply_times (d : List String) (tr : Option (List String))
    (s : ConvState) (x : Message) :
    (processMsg d tr s x).m.first_reply_times = s.m.first_reply_times := by
  simp only [processMsg]
  split <;> split <;> rfl

theorem foldl_processMsg_total_conversations (d : List String) (tr : Option (List String))
    (l : List Message) (s : ConvState) :
    (l.foldl (processMsg d tr) s).m.total_conversations = s.m.total_conversations := by
  induction l generalizing s with
  | nil => rfl
  | cons x xs ih =>
    rw [List.foldl_cons, ih, processMsg_total_conversations]

theorem foldl_processMsg_conversations_with_reply (d : List String)
    (tr : Option (List String)) (l : List Message) (s : ConvState) :
    (l.foldl (processMsg d tr) s).m.conversations_with_reply =
      s.m.conversations_with_reply := by
  induction l generalizing s with
  | nil => rfl
  | cons x xs ih =>
    rw [List.foldl_cons, ih, processMsg_conversations_with_reply]

theorem foldl_processMsg_first_reply_times (d : List String)
    (tr : Option (List String)) (l : List Message) (s : ConvState) :
    (l.foldl (processMsg d tr) s).m.first_reply_times = s.m.first_reply_times := by
  induction l generalizing s with
  | nil => rfl
  | cons x xs ih =>
    rw [List.foldl_cons, ih, processMsg_first_reply_times]

theorem processConv_total_conversations (startTs endTs : Int) (d : List String)
    (tr : Option (List String)) (m : Metrics) (f : Option (List Message)) :
    (processConv startTs endTs d tr m f).total_conversations = m.total_conversations := by
  cases f with
  | none => rfl
  | some messages =>
    simp only [processConv]
    split
    · split
      · exact foldl_processMsg_total_conversations ..
      · exact foldl_processMsg_total_conversations ..
    · exact foldl_processMsg_total_conversations ..

theorem foldl_processConv_total_conversations (startTs endTs : Int) (d : List String)
    (tr : Option (List String)) (l : List (Option (List Message))) (m : Metrics) :
    (l.foldl (processConv startTs endTs d tr) m).total_conversations =
      m.total_conversations := by
  induction l generalizing m with
  | nil => rfl
  | cons f fs ih =>
    rw [List.foldl_cons, ih, processConv_total_conversations]

/-- Each conversation adds the same amount `b ∈ {0, 1}` to
`conversations_with_reply` and to the length of `first_reply_times`. -/
theorem processConv_reply_step (startTs endTs : Int) (d : List String)
    (tr : Option (List String)) (m : Metrics) (f : Option (List Message)) :
    ∃ b, b ≤ 1 ∧
      (processConv startTs endTs d tr m f).conversations_with_reply =
        m.conversations_with_reply + b ∧
      (processConv startTs endTs d tr m f).first_reply_times.length =
        m.first_reply_times.length + b := by
  cases f with
  | none => exact ⟨0, by simp [processConv]⟩
  | some messages =>
    simp only [processConv]
    split
    · split
      · refine ⟨1, le_refl 1, ?_, ?_⟩ <;>
          simp [foldl_processMsg_conversations_with_reply,
            foldl_processMsg_first_reply_times]
      · refine ⟨0, Nat.zero_le 1, ?_, ?_⟩ <;>
          simp [foldl_processMsg_conversations_with_reply,
            foldl_processMsg_first_reply_times]
    · refine ⟨0, Nat.zero_le 1, ?_, ?_⟩ <;>
        simp [foldl_processMsg_conversations_with_reply,
          foldl_processMsg_first_reply_times]

theorem foldl_processConv_reply_bound (startTs endTs : Int) (d : List String)
    (tr : Option (List String)) (l : List (Option (List Message))) (m : Metrics) :
    ∃ b, b ≤ l.length ∧
      (l.foldl (processConv startTs endTs d tr) m).conversations_with_reply =
        m.conversations_with_reply + b ∧
      (l.foldl (processConv startTs endTs d tr) m).first_reply_times.length =
        m.first_reply_times.length + b := by
  induction l generalizing m with
  | nil => exact ⟨0, by simp⟩
  | cons f fs ih =>
    obtain ⟨b₁, hb₁, hwr₁, hlen₁⟩ := processConv_reply_step startTs endTs d tr m f
    obtain ⟨b₂, hb₂, hwr₂, hlen₂⟩ := ih (processConv startTs endTs d tr m f)
    refine ⟨b₁ + b₂, ?_, ?_, ?_⟩ <;>
      simp only [List.length_cons, List.foldl_cons] <;> omega

/-! ### `total_conversations` is neither read nor written by the loops -/

theorem processMsg_set_tc (d : List String) (tr : Option (List String))
    (m : Metrics) (k : Nat) (fi fo : Option Int) (x : Message) :
    processMsg d tr ⟨{ m with total_conversations := k }, fi, fo⟩ x =
      ⟨{ (processMsg d tr ⟨m, fi, fo⟩ x).m with total_conversations := k },
       (processMsg d tr ⟨m, fi, fo⟩ x).first_inbound_time,
       (processMsg d tr ⟨m, fi, fo⟩ x).first_outbound_time⟩ := by
  simp only [processMsg]
  split_ifs <;> rfl

theorem foldl_processMsg_set_tc (d : List String) (tr : Option (List String))
    (l : List Message) (m : Metrics) (k : Nat) (fi fo : Option Int) :
    l.foldl (processMsg d tr) ⟨{ m with total_conversations := k }, fi, fo⟩ =
      ⟨{ (l.foldl (processMsg d tr) ⟨m, fi, fo⟩).m with total_conversations := k },
       (l.foldl (processMsg d tr) ⟨m, fi, fo⟩).first_inbound_time,
       (l.foldl (processMsg d tr) ⟨m, fi, fo⟩).first_outbound_time⟩ := by
  induction l generalizing m fi fo with
  | nil => rfl
  | cons x xs ih =>
    rw [List.foldl_cons, List.foldl_cons, processMsg_set_tc]
    exact ih ..

theorem processConv_set_tc (startTs endTs : Int) (d : List String)
    (tr : Option (List String)) (m : Metrics) (k : Nat) (f : Option (List Message)) :
    processConv startTs endTs d tr { m with total_conversations := k } f =
      { processConv startTs endTs d tr m f with total_conversations := k } := by
  cases f with
  | none => rfl
  | some messages =>
    simp only [processConv, foldl_processMsg_set_tc]
    split_ifs <;> rfl

theorem foldl_processConv_set_tc (startTs endTs : Int) (d : List String)
    (tr : Option (List String)) (l : List (Option (List Message)))
    (m : Metrics) (k : Nat) :
    l.foldl (processConv startTs endTs d tr) { m with total_conversations := k } =
      { l.foldl (processConv startTs endTs d tr) m with total_conversations := k } := by
  induction l generalizing m with
  | nil => rfl
  | cons f fs ih =>
    rw [List.foldl_cons, List.foldl_cons, processConv_set_tc]
    exact ih ..

/-! ### The walk computes the spec-side first-reply endpoints -/

theorem ConvState.eta (s : ConvState) :
    s = ⟨s.m, s.first_inbound_time, s.first_outbound_time⟩ := rfl

theorem processMsg_fit (d : List String) (tr : Option (List String))
    (s : ConvState) (x : Message) :
    (processMsg d tr s x).first_inbound_time =
      if is_internal d (get_email x.from_address) then s.first_inbound_time
      else if s.first_inbound_time = none then some x.delivered_at
      else s.first_inbound_time := by
  simp only [processMsg]
  split_ifs <;> rfl

theorem processMsg_fot (d : List String) (tr : Option (List String))
    (s : ConvState) (x : Message) :
    (processMsg d tr s x).first_outbound_time =
      if is_internal d (get_email x.from_address) then
        if s.first_outbound_time = none ∧ s.first_inbound_time ≠ none then
          some x.delivered_at
        else s.first_outbound_time
      else s.first_outbound_time := by
  simp only [processMsg]
  split_ifs <;> first | rfl | simp_all

theorem foldl_processMsg_both_set (d : List String) (tr : Option (List String))
    (l : List Message) : ∀ (m : Metrics) (a b : Int),
    (l.foldl (processMsg d tr) ⟨m, some a, some b⟩).first_inbound_time = some a ∧
    (l.foldl (processMsg d tr) ⟨m, some a, some b⟩).first_outbound_time = some b := by
  induction l with
  | nil => intro m a b; exact ⟨rfl, rfl⟩
  | cons x xs ih =>
    intro m a b
    rw [List.foldl_cons]
    have hfit : (processMsg d tr ⟨m, some a, some b⟩ x).first_inbound_time = some a := by
      rw [processMsg_fit]; split_ifs <;> simp_all
    have hfot : (processMsg d tr ⟨m, some a, some b⟩ x).first_outbound_time = some b := by
      rw [processMsg_fot]; split_ifs <;> simp_all
    rw [ConvState.eta (processMsg d tr ⟨m, some a, some b⟩ x), hfit, hfot]
    exact ih _ a b

theorem foldl_processMsg_after_inbound (d : List String) (tr : Option (List String))
    (l : List Message) : ∀ (m : Metrics) (a : Int),
    (l.foldl (processMsg d tr) ⟨m, some a, none⟩).first_inbound_time = some a ∧
    (l.foldl (processMsg d tr) ⟨m, some a, none⟩).first_outbound_time =
      firstOutboundFrom d l := by
  induction l with
  | nil => intro m a; exact ⟨rfl, rfl⟩
  | cons x xs ih =>
    intro m a
    rw [List.foldl_cons]
    by_cases hx : is_internal d (get_email x.from_address) = true
    · have hfit : (processMsg d tr ⟨m, some a, none⟩ x).first_inbound_time = some a := by
        rw [processMsg_fit]; split_ifs <;> simp_all
      have hfot : (processMsg d tr ⟨m, some a, none⟩ x).first_outbound_time =
          some x.delivered_at := by
        rw [processMsg_fot]; split_ifs <;> simp_all
      rw [ConvState.eta (processMsg d tr ⟨m, some a, none⟩ x), hfit, hfot]
      refine ⟨(foldl_processMsg_both_set d tr xs _ a x.delivered_at).1, ?_⟩
      rw [(foldl_processMsg_both_set d tr xs _ a x.delivered_at).2,
        firstOutboundFrom, if_pos hx]
    · have hfit : (processMsg d tr ⟨m, some a, none⟩ x).first_inbound_time = some a := by
        rw [processMsg_fit]; split_ifs <;> simp_all
      have hfot : (processMsg d tr ⟨m, some a, none⟩ x).first_outbound_time = none := by
        rw [processMsg_fot]; split_ifs <;> simp_all
      rw [ConvState.eta (processMsg d tr ⟨m, some a, none⟩ x), hfit, hfot]
      refine ⟨(ih _ a).1, ?_⟩
      rw [(ih _ a).2, firstOutboundFrom, if_neg hx]

theorem foldl_processMsg_walk (d : List String) (tr : Option (List String))
    (l : List Message) : ∀ (m : Metrics),
    (l.foldl (processMsg d tr) ⟨m, none, none⟩).first_inbound_time =
      firstInboundAt d l ∧
    (l.foldl (processMsg d tr) ⟨m, none, none⟩).first_outbound_time =
      firstOutboundAfterInboundAt d l := by
  induction l with
  | nil => intro m; exact ⟨rfl, rfl⟩
  | cons x xs ih =>
    intro m
    rw [List.foldl_cons]
    by_cases hx : is_internal d (get_email x.from_address) = true
    · have hfit : (processMsg d tr ⟨m, none, none⟩ x).first_inbound_time = none := by
        rw [processMsg_fit]; split_ifs <;> simp_all
      have hfot : (processMsg d tr ⟨m, none, none⟩ x).first_outbound_time = none := by
        rw [processMsg_fot]; split_ifs <;> simp_all
      rw [ConvState.eta (processMsg d tr ⟨m, none, none⟩ x), hfit, hfot]
      refine ⟨?_, ?_⟩
      · rw [(ih _).1, firstInboundAt, if_pos hx]
      · rw [(ih _).2, firstOutboundAfterInboundAt, if_pos hx]
    · have hfit : (processMsg d tr ⟨m, none, none⟩ x).first_inbound_time =
          some x.delivered_at := by
        rw [processMsg_fit]; split_ifs <;> simp_all
      have hfot : (processMsg d tr ⟨m, none, none⟩ x).first_outbound_time = none := by
        rw [processMsg_fot]; split_ifs <;> simp_all
      rw [ConvState.eta (processMsg d tr ⟨m, none, none⟩ x), hfit, hfot]
      refine ⟨?_, ?_⟩
      · rw [(foldl_processMsg_after_inbound d tr xs _ x.delivered_at).1,
          firstInboundAt, if_neg hx]
      · rw [(foldl_processMsg_after_inbound d tr xs _ x.delivered_at).2,
          firstOutboundAfterInboundAt, if_neg hx]

/-! ### The channel filter only influences the channel maps -/

/-- The non-channel fields of the metrics dict, bundled. -/
structure FlowView where
  total_conversations : Nat
  total_inbound : Nat
  total_outbound : Nat
  conversations_with_reply : Nat
  first_reply_times : List Int
  deriving Repr, DecidableEq

/-- Projection of a metrics dict onto its non-channel fields. -/
def Metrics.flow (m : Metrics) : FlowView :=
  ⟨m.total_conversations, m.total_inbound, m.total_outbound,
   m.conversations_with_reply, m.first_reply_times⟩

theorem processMsg_flow (d : List String) (tr tr' : Option (List String))
    (m m' : Metrics) (fi fo : Option Int) (x : Message) (h : m.flow = m'.flow) :
    (processMsg d tr ⟨m, fi, fo⟩ x).m.flow = (processMsg d tr' ⟨m', fi, fo⟩ x).m.flow ∧
    (processMsg d tr ⟨m, fi, fo⟩ x).first_inbound_time =
      (processMsg d tr' ⟨m', fi, fo⟩ x).first_inbound_time ∧
    (processMsg d tr ⟨m, fi, fo⟩ x).first_outbound_time =
      (processMsg d tr' ⟨m', fi, fo⟩ x).first_outbound_time := by
  simp only [Metrics.flow, FlowView.mk.injEq] at h
  obtain ⟨h1, h2, h3, h4, h5⟩ := h
  simp only [processMsg]
  split_ifs <;> simp_all [Metrics.flow]

theorem foldl_processMsg_flow (d : List String) (tr tr' : Option (List String))
    (l : List Message) : ∀ (m m' : Metrics) (fi fo : Option Int),
    m.flow = m'.flow →
    (l.foldl (processMsg d tr) ⟨m, fi, fo⟩).m.flow =
      (l.foldl (processMsg d tr') ⟨m', fi, fo⟩).m.flow ∧
    (l.foldl (processMsg d tr) ⟨m, fi, fo⟩).first_inbound_time =
      (l.foldl (processMsg d tr') ⟨m', fi, fo⟩).first_inbound_time ∧
    (l.foldl (processMsg d tr) ⟨m, fi, fo⟩).first_outbound_time =
      (l.foldl (processMsg d tr') ⟨m', fi, fo⟩).first_outbound_time := by
  induction l with
  | nil => intro m m' fi fo h; exact ⟨h, rfl, rfl⟩
  | cons x xs ih =>
    intro m m' fi fo h
    obtain ⟨hm, hfi, hfo⟩ := processMsg_flow d tr tr' m m' fi fo x h
    rw [List.foldl_cons, List.foldl_cons,
      ConvState.eta (processMsg d tr ⟨m, fi, fo⟩ x),
      ConvState.eta (processMsg d tr' ⟨m', fi, fo⟩ x), hfi, hfo]
    exact ih _ _ _ _ hm

theorem processConv_flow (startTs endTs : Int) (d : List String)
    (tr tr' : Option (List String)) (m m' : Metrics) (f : Option (List Message))
    (h : m.flow = m'.flow) :
    (processConv startTs endTs d tr m f).flow =
      (processConv startTs endTs d tr' m' f).flow := by
  cases f with
  | none => exact h
  | some messages =>
    simp only [processConv]
    obtain ⟨hm, hfi, hfo⟩ :=
      foldl_processMsg_flow d tr tr' (sortMsgs (filterMsgs startTs endTs messages))
        m m' none none h
    rw [hfi, hfo]
    simp only [Metrics.flow, FlowView.mk.injEq] at hm
    obtain ⟨h1, h2, h3, h4, h5⟩ := hm
    split_ifs <;> simp_all [Metrics.flow]

theorem foldl_processConv_flow (startTs endTs : Int) (d : List String)
    (tr tr' : Option (List String)) (l : List (Option (List Message))) :
    ∀ (m m' : Metrics), m.flow = m'.flow →
    (l.foldl (processConv startTs endTs d tr) m).flow =
      (l.foldl (processConv startTs endTs d tr') m').flow := by
  induction l with
  | nil => intro m m' h; exact h
  | cons f fs ih =>
    intro m m' h
    rw [List.foldl_cons, List.foldl_cons]
    exact ih _ _ (processConv_flow startTs endTs d tr tr' m m' f h)

/-! ### Pager lemmas -/

/-- With upstream pages of at most the page size (50), the accumulator can
overshoot the cap only by the final page: the result stays below
`cap + 50`. -/
theorem pagerLoop_length_lt (startTs endTs : Int) (cap : Int)
    (pages : List (List Conv)) : ∀ acc : List Conv,
    (∀ p ∈ pages, p.length ≤ 50) → acc.length < cap.toNat + 50 →
    (pagerLoop startTs endTs cap pages acc).length < cap.toNat + 50 := by
  induction pages with
  | nil => intro acc _ h; exact h
  | cons batch rest ih =>
    intro acc hp hacc
    have hbatch : batch.length ≤ 50 := hp batch (List.mem_cons_self batch rest)
    have hret : (retainPage startTs endTs batch).length ≤ batch.length :=
      List.length_filter_le ..
    simp only [pagerLoop]
    split_ifs with h1 h2 h3 h4
    · exact hacc
    · simp only [List.length_append]; omega
    · simp only [List.length_append]; omega
    · refine ih _ (fun p hmem => hp p (List.mem_cons_of_mem _ hmem)) ?_
      simp only [List.length_append]; omega
    · exact hacc

/-- Everything the pager returns came from some fetched page and passed the
client-side date filter. -/
theorem pagerLoop_mem (startTs endTs : Int) (cap : Int)
    (pages : List (List Conv)) : ∀ (acc : List Conv) (c : Conv),
    c ∈ pagerLoop startTs endTs cap pages acc →
    c ∈ acc ∨ (c ∈ pages.flatten ∧
      (c.last_activity_at ≥ startTs ∨ c.created_at ≥ startTs) ∧
      c.created_at ≤ endTs) := by
  induction pages with
  | nil => intro acc c h; exact Or.inl h
  | cons batch rest ih =>
    intro acc c h
    have hsplit : ∀ hc : c ∈ acc ++ retainPage startTs endTs batch,
        c ∈ acc ∨ (c ∈ (batch :: rest).flatten ∧
          (c.last_activity_at ≥ startTs ∨ c.created_at ≥ startTs) ∧
          c.created_at ≤ endTs) := by
      intro hc
      rcases List.mem_append.mp hc with hca | hcf
      · exact Or.inl hca
      · right
        obtain ⟨hmem, hcond⟩ := List.mem_filter.mp hcf
        simp only [Bool.and_eq_true, Bool.or_eq_true, decide_eq_true_eq] at hcond
        exact ⟨List.mem_flatten.mpr ⟨batch, List.mem_cons_self _ _, hmem⟩,
          hcond.1, hcond.2⟩
    simp only [pagerLoop] at h
    split_ifs at h with h1 h2 h3 h4
    · exact Or.inl h
    · exact hsplit h
    · exact hsplit h
    · rcases ih _ c h with hc | ⟨hj, hfil⟩
      · exact hsplit hc
      · exact Or.inr ⟨List.mem_flatten.mpr (by
          obtain ⟨p, hp, hcp⟩ := List.mem_flatten.mp hj
          exact ⟨p, List.mem_cons_of_mem _ hp, hcp⟩), hfil⟩
    · exact Or.inl h

/-- Once a page's minimum `last_activity_at` falls before the window start,
the pager's result does not depend on anything after that page: no later
page is fetched. -/
theorem pagerLoop_stop (startTs endTs : Int) (cap : Int) (batch : List Conv)
    (hmin : minLastActivity batch < startTs)
    (pages2 pages2' : List (List Conv)) : ∀ (pages1 : List (List Conv)) (acc : List Conv),
    pagerLoop startTs endTs cap (pages1 ++ batch :: pages2) acc =
      pagerLoop startTs endTs cap (pages1 ++ batch :: pages2') acc := by
  intro pages1
  induction pages1 with
  | nil =>
    intro acc
    simp only [List.nil_append, pagerLoop]
    split_ifs <;> rfl
  | cons p rest1 ih =>
    intro acc
    simp only [List.cons_append, pagerLoop]
    split_ifs <;> first | rfl | exact ih _

/-! ### Classification characterisation -/

theorem is_internal_iff (d : List String) (a : String) :
    is_internal d a = true ↔ a ≠ "" ∧ ∃ dm ∈ d, strIn dm (strLower a) = true := by
  unfold is_internal
  split_ifs with h
  · simp [h]
  · simp [h, List.any_eq_true]

/-! ### Distribution bucket partition -/

theorem bucketCounts_sum (times : List Int) :
    (bucketCounts times).sum = times.length := by
  unfold bucketCounts
  induction times with
  | nil => rfl
  | cons t ts ih =>
    simp only [List.countP_cons, List.sum_cons, List.sum_nil, List.length_cons,
      decide_eq_true_eq] at ih ⊢
    split_ifs <;> omega

/-! ## Claim theorems -/

/-- C1: evaluation of the code at the failing input.  On the date-filtered,
`delivered_at`-sorted messages of the conversation, the first inbound
message is at timestamp 0 and the first outbound message after it is at
timestamp 120 — both endpoints are present and the difference 120 is
strictly positive — yet the aggregation records no reply latency: the
truthiness test `if first_inbound_time and first_outbound_time` treats the
timestamp 0 as missing. -/
theorem reply_latency_dropped_at_zero_timestamp :
    firstInboundAt ["example.com"]
        (sortMsgs (filterMsgs (-86400) 86400 [msgInboundAtZero, msgOutboundAt120])) =
      some 0 ∧
    firstOutboundAfterInboundAt ["example.com"]
        (sortMsgs (filterMsgs (-86400) 86400 [msgInboundAtZero, msgOutboundAt120])) =
      some 120 ∧
    (120 : Int) - 0 > 0 ∧
    (aggregate (-86400) 86400 ["example.com"] none
        [some [msgInboundAtZero, msgOutboundAt120]]).first_reply_times = [] ∧
    (aggregate (-86400) 86400 ["example.com"] none
        [some [msgInboundAtZero, msgOutboundAt120]]).conversations_with_reply = 0 := by
  decide

/-- C3: counterexample.  With cap 1 and one upstream page of two qualifying
conversations, the pager retains both: the returned sequence is longer than
the caller-specified cap. -/
theorem pager_cap_exceeded :
    ¬ ((conversationPager 0 200 1 [[convInRange, convInRange]]).length ≤ 1) := by
  decide

/-- C3 (amended): the pager stops requesting further pages once the
retained count reaches the cap, but the page that crosses the cap is kept
whole, so with upstream pages of at most the page size (50) the result
length is below `cap + 50` — an overshoot of at most 49 — rather than at
most `cap`. -/
theorem pager_cap_bound (startTs endTs cap : Int) (pages : List (List Conv))
    (hpage : ∀ p ∈ pages, p.length ≤ 50) :
    (conversationPager startTs endTs cap pages).length < cap.toNat + 50 :=
  pagerLoop_length_lt startTs endTs cap pages [] hpage (by simp)

/-- C3 (amended) witness at a concrete feed and cap. -/
theorem pager_cap_bound_witness :
    (conversationPager 0 200 1 [[convInRange, convInRange]]).length <
      (1 : Int).toNat + 50 :=
  pager_cap_bound 0 200 1 [[convInRange, convInRange]] (by decide)

/-- C4: a failed message fetch (`none`) skips its conversation atomically —
the fold step is the identity on the metrics — and inserting a failed
fetch anywhere in the run changes nothing in the aggregate except
`total_conversations` (which counts retained conversations, fetched or
not): the remaining conversations are still processed. -/
theorem fetch_failure_skips_conversation (startTs endTs : Int) (d : List String)
    (tr : Option (List String)) (m : Metrics)
    (pre rest : List (Option (List Message))) :
    processConv startTs endTs d tr m none = m ∧
    aggregate startTs endTs d tr (pre ++ none :: rest) =
      { aggregate startTs endTs d tr (pre ++ rest) with
        total_conversations := (pre ++ none :: rest).length } := by
  refine ⟨rfl, ?_⟩
  unfold aggregate
  have hinit : ({ initMetrics with
      total_conversations := (pre ++ none :: rest).length } : Metrics) =
      { ({ initMetrics with total_conversations := (pre ++ rest).length } : Metrics) with
        total_conversations := (pre ++ none :: rest).length } := rfl
  rw [hinit, foldl_processConv_set_tc, List.foldl_append, List.foldl_append,
    List.foldl_cons]
  rfl

/-- C5: at every point during aggregation (after any number of processed
conversations) and after it, `conversations_with_reply` is at most
`total_conversations` and the reply-latency sequence has exactly
`conversations_with_reply` entries. -/
theorem reply_count_invariants (startTs endTs : Int) (d : List String)
    (tr : Option (List String)) (pre rest : List (Option (List Message))) :
    ((pre.foldl (processConv startTs endTs d tr)
        { initMetrics with total_conversations := (pre ++ rest).length }).conversations_with_reply ≤
      (pre.foldl (processConv startTs endTs d tr)
        { initMetrics with total_conversations := (pre ++ rest).length }).total_conversations ∧
     (pre.foldl (processConv startTs endTs d tr)
        { initMetrics with total_conversations := (pre ++ rest).length }).first_reply_times.length =
      (pre.foldl (processConv startTs endTs d tr)
        { initMetrics with total_conversations := (pre ++ rest).length }).conversations_with_reply) ∧
    ((aggregate startTs endTs d tr (pre ++ rest)).conversations_with_reply ≤
      (aggregate startTs endTs d tr (pre ++ rest)).total_conversations ∧
     (aggregate startTs endTs d tr (pre ++ rest)).first_reply_times.length =
      (aggregate startTs endTs d tr (pre ++ rest)).conversations_with_reply) := by
  constructor
  · obtain ⟨b, hb, hwr, hlen⟩ := foldl_processConv_reply_bound startTs endTs d tr pre
      { initMetrics with total_conversations := (pre ++ rest).length }
    have htc := foldl_processConv_total_conversations startTs endTs d tr pre
      { initMetrics with total_conversations := (pre ++ rest).length }
    simp only [initMetrics] at hwr hlen htc ⊢
    constructor
    · rw [hwr, htc]; simp only [List.length_append]; omega
    · rw [hlen, hwr]; rfl
  · unfold aggregate
    obtain ⟨b, hb, hwr, hlen⟩ := foldl_processConv_reply_bound startTs endTs d tr
      (pre ++ rest) { initMetrics with total_conversations := (pre ++ rest).length }
    have htc := foldl_processConv_total_conversations startTs endTs d tr (pre ++ rest)
      { initMetrics with total_conversations := (pre ++ rest).length }
    simp only [initMetrics] at hwr hlen htc ⊢
    constructor
    · rw [hwr, htc]; omega
    · rw [hlen, hwr]; rfl

/-- C9: `total_conversations` equals the number of retained conversations,
whatever the per-conversation fetch outcomes are — failed fetches (`none`)
are counted too, since the field is fixed from the pager's result before
the loop and never touched by it. -/
theorem total_conversations_counts_all (startTs endTs : Int) (d : List String)
    (tr : Option (List String)) (fetches : List (Option (List Message))) :
    (aggregate startTs endTs d tr fetches).total_conversations = fetches.length := by
  unfold aggregate
  rw [foldl_processConv_total_conversations]

set_option maxRecDepth 80000

/-- C2: counterexample.  A synthetic 3-page feed of 50 conversations per
page, where every page-3 entry has `last_activity_at` (10) before the
window start (50): the pager still returns page-3 conversations, because a
page's qualifying entries (here: `created_at` 100 inside the window) are
appended before the minimum-`last_activity_at` stopping rule is evaluated.
Entries with `last_activity_at = 10` occur only on page 3, yet one is in
the result. -/
theorem pager_returns_stop_page_entries :
    pageInRange.length = 50 ∧ pageLateActivity.length = 50 ∧
    pageLateActivity.all (fun c => c.last_activity_at < 50) = true ∧
    pageInRange.all (fun c => c.last_activity_at ≠ 10) = true ∧
    (conversationPager 50 200 2000 [pageInRange, pageInRange, pageLateActivity]).any
      (fun c => c.last_activity_at == 10) = true := by
  decide

/-- C2 (amended): the minimum-`last_activity_at` stopping rule stops
*fetching*, not *including*: (1) every conversation the pager returns came
from a fetched page and passed the client-side date filter — so page-3
entries that fail the filter are never included; (2) once a page's minimum
`last_activity_at` is before the window start, pages after it are never
fetched: the result does not depend on them. -/
theorem pager_stop_amended :
    (∀ (startTs endTs cap : Int) (pages : List (List Conv)) (c : Conv),
       c ∈ conversationPager startTs endTs cap pages →
       c ∈ pages.flatten ∧
         (c.last_activity_at ≥ startTs ∨ c.created_at ≥ startTs) ∧
         c.created_at ≤ endTs) ∧
    (∀ (startTs endTs cap : Int) (pages1 : List (List Conv)) (batch : List Conv)
       (pages2 pages2' : List (List Conv)),
       minLastActivity batch < startTs →
       pagerLoop startTs endTs cap (pages1 ++ batch :: pages2) [] =
         pagerLoop startTs endTs cap (pages1 ++ batch :: pages2') []) := by
  constructor
  · intro startTs endTs cap pages c hc
    rcases pagerLoop_mem startTs endTs cap pages [] c hc with h | h
    · exact absurd h (List.not_mem_nil c)
    · exact h
  · intro startTs endTs cap pages1 batch pages2 pages2' hmin
    exact pagerLoop_stop startTs endTs cap batch hmin pages2 pages2' pages1 []

/-- C2 (amended) witness: both parts applied at concrete feeds. -/
theorem pager_stop_amended_witness :
    ((⟨100, 100⟩ : Conv) ∈ [[(⟨100, 100⟩ : Conv)]].flatten ∧
      ((100 : Int) ≥ 50 ∨ (100 : Int) ≥ 50) ∧ (100 : Int) ≤ 200) ∧
    pagerLoop 50 200 5 ([] ++ [(⟨10, 10⟩ : Conv)] :: [[(⟨100, 100⟩ : Conv)]]) [] =
      pagerLoop 50 200 5 ([] ++ [(⟨10, 10⟩ : Conv)] :: []) [] :=
  ⟨pager_stop_amended.1 50 200 5 [[⟨100, 100⟩]] ⟨100, 100⟩ (by decide),
   pager_stop_amended.2 50 200 5 [] [⟨10, 10⟩] [[⟨100, 100⟩]] [] (by decide)⟩

/-- C6: counterexample.  With the (reachable) allowlist `[""]` — e.g. the
tool argument `internal_domains=","` — and a message with a missing sender
field, the empty allowlist entry is a substring of the lowercased (empty)
sender address, so the claimed iff says "outbound"; the code classifies the
message inbound because `is_internal` rejects every falsy address before
the substring test. -/
theorem classification_empty_entry_counterexample :
    ([""].any (fun dm => strIn dm (strLower (get_email none)))) = true ∧
    is_internal [""] (get_email none) = false ∧
    (processMsg [""] none ⟨initMetrics, none, none⟩ ⟨none, [], 5⟩).m.total_inbound = 1 ∧
    (processMsg [""] none ⟨initMetrics, none, none⟩ ⟨none, [], 5⟩).m.total_outbound = 0 := by
  decide

/-- C6 (amended): a message is classified outbound (incrementing
`total_outbound`) iff its extracted sender address is nonempty and some
allowlist entry is a substring of the lowercased address, and inbound
(incrementing `total_inbound`) otherwise; a missing sender field yields the
empty address, hence inbound, and the walk is total (never crashes). -/
theorem classification_amended (d : List String) (tr : Option (List String))
    (s : ConvState) (x : Message) :
    (get_email none = "") ∧
    (if get_email x.from_address ≠ "" ∧
        ∃ dm ∈ d, strIn dm (strLower (get_email x.from_address)) = true then
       (processMsg d tr s x).m.total_outbound = s.m.total_outbound + 1 ∧
       (processMsg d tr s x).m.total_inbound = s.m.total_inbound
     else
       (processMsg d tr s x).m.total_inbound = s.m.total_inbound + 1 ∧
       (processMsg d tr s x).m.total_outbound = s.m.total_outbound) := by
  refine ⟨rfl, ?_⟩
  split_ifs with h
  · have hint : is_internal d (get_email x.from_address) = true :=
      (is_internal_iff d (get_email x.from_address)).mpr h
    simp only [processMsg, hint]
    constructor <;> (split_ifs <;> rfl)
  · have hint : is_internal d (get_email x.from_address) = false := by
      rcases Bool.eq_false_or_eq_true (is_internal d (get_email x.from_address)) with ht | hf
      · exact absurd ((is_internal_iff d (get_email x.from_address)).mp ht) h
      · exact hf
    simp only [processMsg, hint]
    constructor <;> rfl

/-- C7: the six fixed reply-time buckets partition the latency sequence —
their counts sum exactly to its length — and every rendered percentage is
`count * 100 // total` with floor division over the bucket counts in
rendering order. -/
theorem distribution_buckets (times : List Int) :
    (bucketCounts times).sum = times.length ∧
    replyDistribution times =
      (bucketCounts times).map (fun c => (c, c * 100 / times.length)) :=
  ⟨bucketCounts_sum times, rfl⟩

/-- C8: counterexample.  A conversation cap of 3000 is out of bounds
(documented maximum 2000), yet the entry point reports no `InvalidInput`:
it silently clamps the cap and proceeds to the network phase, here
producing a full report from the upstream feed. -/
theorem cap_out_of_bounds_not_reported :
    calculate_team_metrics true (some 0) (some 0) 3000 ["example.com"] none
        [[convInRange]] (fun _ => none) ≠ EntryOutcome.invalidInput ∧
    calculate_team_metrics true (some 0) (some 0) 3000 ["example.com"] none
        [[convInRange]] (fun _ => none) =
      EntryOutcome.report (aggregate 0 86399 ["example.com"] none [none]) := by
  decide

/-- C8 (amended): with a resolvable token, an unparseable start or end date
is reported as `InvalidInput` immediately and independently of the upstream
feed and message fetcher — i.e. before any network call; an out-of-bounds
cap is never reported: the entry point behaves exactly as if the cap were
`min cap 2000`. -/
theorem invalid_input_before_network :
    (∀ (ps pe : Option Int) (mc : Int) (d : List String) (tr : Option (List String))
       (pages : List (List Conv)) (fetch : Conv → Option (List Message)),
       (ps = none ∨ pe = none) →
       calculate_team_metrics true ps pe mc d tr pages fetch =
         EntryOutcome.invalidInput) ∧
    (∀ (sd ed mc : Int) (d : List String) (tr : Option (List String))
       (pages : List (List Conv)) (fetch : Conv → Option (List Message)),
       calculate_team_metrics true (some sd) (some ed) mc d tr pages fetch =
         calculate_team_metrics true (some sd) (some ed) (min mc 2000) d tr pages
           fetch) := by
  constructor
  · rintro ps pe mc d tr pages fetch (rfl | rfl)
    · cases pe <;> rfl
    · cases ps <;> rfl
  · intro sd ed mc d tr pages fetch
    simp only [calculate_team_metrics, min_assoc, min_self]

/-- C8 (amended) witness: a bad start date is rejected without touching a
nonempty feed, and a 3000 cap behaves as the clamped 2000 cap. -/
theorem invalid_input_before_network_witness :
    ((none : Option Int) = none ∨ (some (5 : Int) : Option Int) = none) ∧
    calculate_team_metrics true none (some 5) 100 [] none [[convInRange]]
        (fun _ => none) = EntryOutcome.invalidInput ∧
    calculate_team_metrics true (some 0) (some 0) 3000 [] none [[convInRange]]
        (fun _ => none) =
      calculate_team_metrics true (some 0) (some 0) (min 3000 2000) [] none
        [[convInRange]] (fun _ => none) :=
  ⟨Or.inl rfl,
   invalid_input_before_network.1 none (some 5) 100 [] none [[convInRange]]
     (fun _ => none) (Or.inl rfl),
   invalid_input_before_network.2 0 0 3000 [] none [[convInRange]] (fun _ => none)⟩

/-- C10: the channel filter cannot influence anything but the per-channel
breakdown maps: for the same upstream data, aggregation with any
tracked-channels filter agrees with the unfiltered aggregation on
`total_inbound`, `total_outbound`, `conversations_with_reply`, the
reply-latency sequence, and `total_conversations`. -/
theorem channel_filter_noninterference (startTs endTs : Int) (d : List String)
    (tr : Option (List String)) (fetches : List (Option (List Message))) :
    (aggregate startTs endTs d tr fetches).total_inbound =
      (aggregate startTs endTs d none fetches).total_inbound ∧
    (aggregate startTs endTs d tr fetches).total_outbound =
      (aggregate startTs endTs d none fetches).total_outbound ∧
    (aggregate startTs endTs d tr fetches).conversations_with_reply =
      (aggregate startTs endTs d none fetches).conversations_with_reply ∧
    (aggregate startTs endTs d tr fetches).first_reply_times =
      (aggregate startTs endTs d none fetches).first_reply_times ∧
    (aggregate startTs endTs d tr fetches).total_conversations =
      (aggregate startTs endTs d none fetches).total_conversations := by
  have h := foldl_processConv_flow startTs endTs d tr none fetches
    { initMetrics with total_conversations := fetches.length }
    { initMetrics with total_conversations := fetches.length } rfl
  unfold aggregate
  exact ⟨congrArg FlowView.total_inbound h, congrArg FlowView.total_outbound h,
    congrArg FlowView.conversations_with_reply h,
    congrArg FlowView.first_reply_times h,
    congrArg FlowView.total_conversations h⟩

end Missive

-- Smoke checks of the classifier on concrete addresses.
example : Missive.is_internal ["example.com"] "me@example.com" = true := by decide
example : Missive.is_internal ["example.com"] "ext@x.com" = false := by decide
example : Missive.is_internal [""] "" = false := by decide
example : Missive.is_internal [""] "a@b.c" = true := by decide

-- Smoke check: the spec's reference scenario (inbound at t=10 from the
-- external address, outbound at t=130 from the internal one) records the
-- 120-second reply.
example :
    (Missive.aggregate 0 86400 ["example.com"] none
      [some [⟨some "ext@x.com", [some "me@example.com"], 10⟩,
             ⟨some "me@example.com", [], 130⟩]]).first_reply_times = [120] := by
  decide
